import Mathlib

/-!
Verification of the harmonic aggregation engine of the quantumelodic
repository (`src/harmonic_engine/engine.py`, with the sign-from-longitude
helper also present in `src/ephemeris_engine/calculator.py`).

Modelling conventions, chosen to mirror the Python source:
* Python floats are modelled as rationals (`ℚ`); every arithmetic operation
  the engine performs (addition, multiplication, division by constants,
  `max`, comparison) is exact on the inputs the claims quantify over.
* Python `int(x)` is truncation toward zero, modelled by `pyint`.
* Python `x % m` for floats has the sign of the divisor; it is modelled by
  `pymod`.
* Python dictionaries are modelled as insertion-ordered association lists:
  `dict.get` is `List.lookup`, `d[k] += w` on a `defaultdict(float)` is
  `addScore` (which updates the first matching key in place or appends a
  fresh key at the end, exactly like CPython dict semantics).
* Python `max(items, key=lambda x: x[1])` scans left to right and keeps the
  current best on ties, so the first item with the maximal value wins; this
  is `maxFrom` / `maxBySnd`.
* `Counter.most_common(1)` is documented as `sorted(..., reverse=True)[:1]`
  with a stable sort, so on ties the earliest-inserted key wins — the same
  first-max-wins rule, hence also modelled by `maxBySnd`.
* The CSV-backed lookup tables (`modal_families_index`, element timbres) are
  external data loaded by `_load_data`; they are passed to the Lean
  functions as explicit parameters.
-/

namespace Quantumelodic

/-- Python `int()` applied to a rational: truncation toward zero. -/
def pyint (x : ℚ) : ℤ := if 0 ≤ x then ⌊x⌋ else ⌈x⌉

/-- Python `%` on floats: `x % m = x - m * floor(x / m)` (sign of the divisor). -/
def pymod (x m : ℚ) : ℚ := x - m * ⌊x / m⌋

/-- A planetary position record; the engine reads only `lon`
(`getattr(pos, 'lon', 0.0)`). -/
structure Position where
  lon : ℚ
  lat : ℚ := 0
  distance : ℚ := 0
deriving DecidableEq

/-- An aspect record as consumed by `_compute_harmonic_tension`:
`a.get('aspect')` and `a.get('orb', 0.0)`. -/
structure Aspect where
  aspect : String
  orb : ℚ
deriving DecidableEq

/-- The chart consumed by the engine: sun/moon/rising signs, a planet-name →
position dictionary (insertion-ordered association list) and an aspect list. -/
structure Chart where
  sun_sign : String
  moon_sign : String
  rising_sign : String
  positions : List (String × Position) := []
  aspects : List Aspect := []
deriving DecidableEq

/-- One row of `modal_families_index.csv` as a dictionary; the engine probes
the keys `pentatonic_mode_id` / `pentatonic_mode` (and the quadratonic pair),
any of which may be absent (`none`). -/
structure Family where
  pentatonic_mode_id : Option String := none
  pentatonic_mode : Option String := none
  quadratonic_mode_id : Option String := none
  quadratonic_mode : Option String := none
deriving DecidableEq

/-- Output record `SonicPayload` of `harmonic_engine/models.py`. -/
structure SonicPayload where
  waveform : String
  recommended_tempo_bpm : ℤ
  timbres : List String
deriving DecidableEq

/-- Output record `HarmonicResult` of `harmonic_engine/models.py`. -/
structure HarmonicResult where
  primary_pentatonic_mode : String
  primary_quadratonic_mode : String
  harmonic_tension_index : ℤ
  dominant_element : String
  sonic_payload : SonicPayload
deriving DecidableEq

/-- Table `PLANET_WEIGHTS` of `engine.py`. -/
def PLANET_WEIGHTS : List (String × ℚ) :=
  [("Sun", 3), ("Moon", 5/2), ("Rising", 2)]

/-- Constant `DEFAULT_PLANET_WEIGHT` of `engine.py`. -/
def DEFAULT_PLANET_WEIGHT : ℚ := 1

/-- Helper `_get_planet_weight`: `PLANET_WEIGHTS.get(planet_name, DEFAULT_PLANET_WEIGHT)`. -/
def _get_planet_weight (planet_name : String) : ℚ :=
  (PLANET_WEIGHTS.lookup planet_name).getD DEFAULT_PLANET_WEIGHT

/-- Table `ASPECT_WEIGHTS` of `engine.py`. -/
def ASPECT_WEIGHTS : List (String × ℚ) :=
  [("Conjunction", 1), ("Opposition", 3), ("Trine", 3/2), ("Square", 5/2), ("Sextile", 1)]

/-- Table `ELEMENT_BY_SIGN` of `engine.py`. -/
def ELEMENT_BY_SIGN : List (String × String) :=
  [("Aries", "Fire"), ("Leo", "Fire"), ("Sagittarius", "Fire"),
   ("Taurus", "Earth"), ("Virgo", "Earth"), ("Capricorn", "Earth"),
   ("Gemini", "Air"), ("Libra", "Air"), ("Aquarius", "Air"),
   ("Cancer", "Water"), ("Scorpio", "Water"), ("Pisces", "Water")]

/-- The `signs` list of `_infer_sign_from_lon`. -/
def SIGNS : List String :=
  ["Aries", "Taurus", "Gemini", "Cancer", "Leo", "Virgo", "Libra",
   "Scorpio", "Sagittarius", "Capricorn", "Aquarius", "Pisces"]

/-- The index `int((lon % 360) // 30)` computed by `_infer_sign_from_lon`
(the floor-division result is a non-negative integer, so `int()` is `toNat`
of the floor). -/
def signIndex (lon : ℚ) : ℕ := (⌊pymod lon 360 / 30⌋).toNat

/-- Function `_infer_sign_from_lon`: `signs[int((lon % 360) // 30)]`; list indexing in
Python raises `IndexError` out of bounds, so the result is an `Option`. -/
def _infer_sign_from_lon (lon : ℚ) : Option String := SIGNS[signIndex lon]?

/-- Total version of `_infer_sign_from_lon`, used inside the engine; the
index is always in bounds, so the two agree wherever the engine calls it. -/
def inferSignTotal (lon : ℚ) : String := SIGNS.getD (signIndex lon) ""

/-- Tension contribution of one aspect record:
`ASPECT_WEIGHTS.get(name, 1.0) * (1.0 + max(0.0, 1.0 - orb / 10.0))`. -/
def tensionTerm (a : Aspect) : ℚ :=
  let weight := (ASPECT_WEIGHTS.lookup a.aspect).getD 1
  let closeness := max 0 (1 - a.orb / 10)
  weight * (1 + closeness)

/-- Function `_compute_harmonic_tension` of `engine.py`, as a function of the chart's
aspect list: `min(100, int((score / 40.0) * 100))`. -/
def _compute_harmonic_tension (aspects : List Aspect) : ℤ :=
  let score := (aspects.map tensionTerm).sum
  min 100 (pyint (score / 40 * 100))

/-- The `waveform_map` of `_build_sonic_payload`. -/
def waveform_map : List (String × String) :=
  [("Water", "sine"), ("Fire", "sawtooth"), ("Air", "triangle"), ("Earth", "square")]

/-- Function `_build_sonic_payload` of `engine.py`; the element→timbre table loaded by
`_load_data` is the explicit parameter `timbre_map`. -/
def _build_sonic_payload (timbre_map : List (String × List String))
    (dominant_element : String) (tension : ℤ) : SonicPayload :=
  let waveform := (waveform_map.lookup dominant_element).getD "sine"
  let tempo := 60 + pyint ((tension : ℚ) / 100 * 80)
  let timbres := (timbre_map.lookup dominant_element).getD []
  let timbres :=
    if timbres = [] then
      if dominant_element = "Water" ∨ dominant_element = "Air" then
        ["piano", "strings"]
      else
        ["guitar", "organ"]
    else timbres
  { waveform := waveform, recommended_tempo_bpm := tempo, timbres := timbres }

/-- One score dictionary of the aggregator (`defaultdict(float)`),
insertion-ordered. -/
abbrev Scores := List (String × ℚ)

/-- Python `d[k] += w` on a `defaultdict(float)`: update the first entry with the
given key in place, or append a fresh entry at the end (CPython dict
insertion order). -/
def addScore : Scores → String → ℚ → Scores
  | [], k, w => [(k, w)]
  | (k', v) :: rest, k, w =>
    if k' = k then (k', v + w) :: rest else (k', v) :: addScore rest k w

/-- Left-to-right scan of Python `max(..., key=lambda x: x[1])`: replace the
current best only on a strictly larger value, so the first maximal item wins. -/
def maxFrom : (String × ℚ) → List (String × ℚ) → String × ℚ
  | best, [] => best
  | best, x :: xs => maxFrom (if best.2 < x.2 then x else best) xs

/-- Python `max(items, key=lambda x: x[1])` on a possibly empty item list
(`none` models the `ValueError` branch, guarded in the source by
`if pent_scores else 'UNKNOWN'`). -/
def maxBySnd : List (String × ℚ) → Option (String × ℚ)
  | [] => none
  | x :: xs => some (maxFrom x xs)

/-- Python `list(dict.fromkeys(l))`: de-duplicate keeping first occurrences. -/
def pyDedup (l : List String) : List String :=
  l.foldl (fun acc x => if acc.contains x then acc else acc ++ [x]) []

/-- Python truthiness of an optional string (`if pent_id:`):
`None` and `""` are falsy. -/
def pyTruthy : Option String → Bool
  | none => false
  | some s => decide (s ≠ "")

/-- Python `a or b` on optional strings: `a` when truthy, else `b`. -/
def pyOr (a b : Option String) : Option String := if pyTruthy a then a else b

/-- Normalize an optional string to `some` exactly when it is truthy. -/
def truthyOpt (o : Option String) : Option String :=
  if pyTruthy o then o else none

/-- Python expression `family.get('pentatonic_mode_id') or family.get('pentatonic_mode')`. -/
def familyPentId (f : Family) : Option String :=
  pyOr f.pentatonic_mode_id f.pentatonic_mode

/-- Python expression `family.get('quadratonic_mode_id') or family.get('quadratonic_mode')`. -/
def familyQuadId (f : Family) : Option String :=
  pyOr f.quadratonic_mode_id f.quadratonic_mode

/-- Sign resolution for one contributor inside `_aggregate_canonical_modes`:
Sun/Moon/Rising read the chart's sign fields, any other contributor reads its
longitude from `chart.positions` (`none` = the `pos is None: continue` skip). -/
def contributorSign (chart : Chart) (p : String) : Option String :=
  if p = "Rising" then some chart.rising_sign
  else if p = "Sun" then some chart.sun_sign
  else if p = "Moon" then some chart.moon_sign
  else
    match chart.positions.lookup p with
    | none => none
    | some pos => some (inferSignTotal pos.lon)

/-- The body of the `for p in contributors:` loop of
`_aggregate_canonical_modes`, acting on the pair of score dictionaries. -/
def processContributor (modal_index : List (String × Family)) (chart : Chart)
    (acc : Scores × Scores) (p : String) : Scores × Scores :=
  match contributorSign chart p with
  | none => acc
  | some sign =>
    let weight := _get_planet_weight p
    let family := (modal_index.lookup sign).getD {}
    let pent' :=
      match truthyOpt (familyPentId family) with
      | some id => addScore acc.1 id weight
      | none => acc.1
    let quad' :=
      match truthyOpt (familyQuadId family) with
      | some id => addScore acc.2 id weight
      | none => acc.2
    (pent', quad')

/-- The contributor list of `_aggregate_canonical_modes`:
`list(dict.fromkeys(['Sun', 'Moon', 'Rising'] + list(chart.positions.keys())))`. -/
def contributors (chart : Chart) : List String :=
  pyDedup (["Sun", "Moon", "Rising"] ++ chart.positions.map Prod.fst)

/-- The two score dictionaries after the contributor loop of
`_aggregate_canonical_modes` (pentatonic scores, quadratonic scores). -/
def _aggregate_scores (modal_index : List (String × Family)) (chart : Chart) :
    Scores × Scores :=
  (contributors chart).foldl (processContributor modal_index chart) ([], [])

/-- Function `_aggregate_canonical_modes` of `engine.py`; the modal-families table
loaded by `_load_data` is the explicit parameter `modal_index`. -/
def _aggregate_canonical_modes (modal_index : List (String × Family))
    (chart : Chart) : String × String :=
  let s := _aggregate_scores modal_index chart
  (((maxBySnd s.1).map Prod.fst).getD "UNKNOWN",
   ((maxBySnd s.2).map Prod.fst).getD "UNKNOWN")

/-- The `sign_counts` Counter of `_determine_dominant_element`: sun, moon and
rising signs one count each, then one count per planet position's inferred
sign, in iteration order. -/
def signCounts (chart : Chart) : Scores :=
  let base := addScore (addScore (addScore [] chart.sun_sign 1) chart.moon_sign 1)
    chart.rising_sign 1
  chart.positions.foldl (fun acc pp => addScore acc (inferSignTotal pp.2.lon) 1) base

/-- The `element_counts` Counter of `_determine_dominant_element`:
`element_counts[ELEMENT_BY_SIGN.get(sign, 'Unknown')] += cnt` over
`sign_counts.items()`. -/
def elementCounts (chart : Chart) : Scores :=
  (signCounts chart).foldl
    (fun acc kv => addScore acc ((ELEMENT_BY_SIGN.lookup kv.1).getD "Unknown") kv.2) []

/-- Function `_determine_dominant_element` of `engine.py`:
`element_counts.most_common(1)[0][0] if element_counts else 'Unknown'`. -/
def _determine_dominant_element (chart : Chart) : String :=
  ((maxBySnd (elementCounts chart)).map Prod.fst).getD "Unknown"

/-- Function `run_harmonic_engine` of `engine.py`, with the two loaded tables it uses
as explicit parameters. -/
def run_harmonic_engine (modal_index : List (String × Family))
    (timbre_map : List (String × List String)) (chart : Chart) : HarmonicResult :=
  let pq := _aggregate_canonical_modes modal_index chart
  let tension := _compute_harmonic_tension chart.aspects
  let dominant_element := _determine_dominant_element chart
  let payload := _build_sonic_payload timbre_map dominant_element tension
  { primary_pentatonic_mode := pq.1
    primary_quadratonic_mode := pq.2
    harmonic_tension_index := tension
    dominant_element := dominant_element
    sonic_payload := payload }

/-- The modal-family table of the specification's worked example: Leo, Gemini
and Aquarius rows with their pentatonic and quadratonic mode IDs. -/
def modalIndexLGA : List (String × Family) :=
  [("Leo", { pentatonic_mode_id := some "PENT-LEO-1",
             quadratonic_mode_id := some "QUAD-LEO-1" }),
   ("Gemini", { pentatonic_mode_id := some "PENT-GEM-1",
                quadratonic_mode_id := some "QUAD-GEM-1" }),
   ("Aquarius", { pentatonic_mode_id := some "PENT-AQU-1",
                  quadratonic_mode_id := some "QUAD-AQU-1" })]

/-- The specification's worked-example chart: sun Leo, moon Gemini, rising
Aquarius, no planet positions, no aspects. -/
def chartLGA : Chart :=
  { sun_sign := "Leo", moon_sign := "Gemini", rising_sign := "Aquarius" }

/-- Adding one more planet contributor to a chart's position dictionary. -/
def chartWithPlanet (chart : Chart) (q : String) (pos : Position) : Chart :=
  { chart with positions := chart.positions ++ [(q, pos)] }

/-- Per-aspect-kind weight exactly as the specification words it
(refinement target for claim C1): Conjunction 1.0, Opposition 3.0, Trine 1.5,
Square 2.5, Sextile 1.0, any unknown aspect kind 1.0. -/
def specAspectWeight (name : String) : ℚ :=
  if name = "Conjunction" then 1
  else if name = "Opposition" then 3
  else if name = "Trine" then 3/2
  else if name = "Square" then 5/2
  else if name = "Sextile" then 1
  else 1

/-- Closeness exactly as the specification words it:
`max(0, 1 - orb_deviation/10)`. -/
def specCloseness (orb : ℚ) : ℚ := max 0 (1 - orb / 10)

/-- The specification's running total: sum of `weight * (1 + closeness)`. -/
def specTensionTotal (aspects : List Aspect) : ℚ :=
  (aspects.map (fun a => specAspectWeight a.aspect * (1 + specCloseness a.orb))).sum

/-- The specification's tension index: `min(100, floor(total / 40.0 * 100))`. -/
def specTension (aspects : List Aspect) : ℤ :=
  min 100 ⌊specTensionTotal aspects / 40 * 100⌋

/-! Supporting lemmas. -/

theorem lookup_mem_snd {β : Type} :
    ∀ {l : List (String × β)} {k : String} {v : β},
      l.lookup k = some v → v ∈ l.map Prod.snd := by
  intro l
  induction l with
  | nil => intro k v h; simp [List.lookup] at h
  | cons hd t ih =>
    intro k v h
    obtain ⟨a, b⟩ := hd
    simp only [List.lookup] at h
    split at h
    · cases h; simp
    · simpa using Or.inr (ih h)

theorem one_le_aspect_weight (n : String) :
    1 ≤ (ASPECT_WEIGHTS.lookup n).getD 1 := by
  cases h : ASPECT_WEIGHTS.lookup n with
  | none => simp
  | some v =>
    have hv := lookup_mem_snd h
    simp only [ASPECT_WEIGHTS, List.map_cons, List.map_nil] at hv
    fin_cases hv <;> norm_num

theorem one_le_planet_weight (p : String) : 1 ≤ _get_planet_weight p := by
  unfold _get_planet_weight
  cases h : PLANET_WEIGHTS.lookup p with
  | none => simp [DEFAULT_PLANET_WEIGHT]
  | some v =>
    have hv := lookup_mem_snd h
    simp only [PLANET_WEIGHTS, List.map_cons, List.map_nil] at hv
    fin_cases hv <;> norm_num

theorem planet_weight_pos (p : String) : 0 < _get_planet_weight p :=
  lt_of_lt_of_le one_pos (one_le_planet_weight p)

theorem one_le_tensionTerm (a : Aspect) : 1 ≤ tensionTerm a := by
  unfold tensionTerm
  have hw := one_le_aspect_weight a.aspect
  have hc : (0 : ℚ) ≤ max 0 (1 - a.orb / 10) := le_max_left 0 _
  nlinarith

theorem tensionTerm_nonneg (a : Aspect) : 0 ≤ tensionTerm a :=
  le_trans zero_le_one (one_le_tensionTerm a)

theorem tension_total_nonneg (aspects : List Aspect) :
    0 ≤ (aspects.map tensionTerm).sum := by
  apply List.sum_nonneg
  intro x hx
  obtain ⟨a, _, rfl⟩ := List.mem_map.1 hx
  exact tensionTerm_nonneg a

theorem pyint_of_nonneg {x : ℚ} (h : 0 ≤ x) : pyint x = ⌊x⌋ := by
  simp [pyint, h]

theorem tension_scaled_nonneg (aspects : List Aspect) :
    0 ≤ (aspects.map tensionTerm).sum / 40 * 100 :=
  mul_nonneg (div_nonneg (tension_total_nonneg aspects) (by norm_num)) (by norm_num)

theorem aspect_weight_eq_spec (n : String) :
    (ASPECT_WEIGHTS.lookup n).getD 1 = specAspectWeight n := by
  simp only [ASPECT_WEIGHTS, List.lookup, specAspectWeight]
  repeat' split <;> simp_all

theorem tensionTerm_eq_spec (a : Aspect) :
    tensionTerm a = specAspectWeight a.aspect * (1 + specCloseness a.orb) := by
  unfold tensionTerm specCloseness
  rw [aspect_weight_eq_spec]

/-! Claim theorems for the tension scorer. -/

/-- Claim C1: for every aspect list, `_compute_harmonic_tension` returns
`min(100, floor(total / 40 * 100))` where `total` sums `weight * (1 + closeness)`
with the specification's weight table (unknown kinds default to 1) and
`closeness = max(0, 1 - orb/10)`. -/
theorem tension_eq_spec_formula (aspects : List Aspect) :
    _compute_harmonic_tension aspects = specTension aspects := by
  have htot : (aspects.map tensionTerm).sum = specTensionTotal aspects := by
    unfold specTensionTotal
    congr 1
    exact List.map_congr_left fun a _ => tensionTerm_eq_spec a
  simp only [_compute_harmonic_tension, specTension]
  rw [pyint_of_nonneg (tension_scaled_nonneg aspects), htot]

/-- Claim C1 witness: the formula instantiated on a concrete aspect list. -/
theorem tension_eq_spec_formula_witness :
    _compute_harmonic_tension [{ aspect := "Square", orb := 3 }] =
      specTension [{ aspect := "Square", orb := 3 }] :=
  tension_eq_spec_formula [{ aspect := "Square", orb := 3 }]

/-- Claim C2: for every aspect list the tension index is an integer in
`[0, 100]`, and on the empty aspect list it is exactly `0`. -/
theorem tension_bounds (aspects : List Aspect) :
    0 ≤ _compute_harmonic_tension aspects ∧
      _compute_harmonic_tension aspects ≤ 100 ∧
      _compute_harmonic_tension [] = 0 := by
  refine ⟨?_, ?_, ?_⟩
  · simp only [_compute_harmonic_tension]
    rw [pyint_of_nonneg (tension_scaled_nonneg aspects)]
    exact le_min (by norm_num) (Int.floor_nonneg.2 (tension_scaled_nonneg aspects))
  · simp only [_compute_harmonic_tension]
    exact min_le_left _ _
  · norm_num [_compute_harmonic_tension, tensionTerm, pyint]

/-- Claim C2 witness: bounds instantiated on a concrete aspect list. -/
theorem tension_bounds_witness :
    0 ≤ _compute_harmonic_tension [{ aspect := "Opposition", orb := 0 }] ∧
      _compute_harmonic_tension [{ aspect := "Opposition", orb := 0 }] ≤ 100 ∧
      _compute_harmonic_tension [] = 0 :=
  tension_bounds [{ aspect := "Opposition", orb := 0 }]

/-- Claim C10: every non-empty aspect list scores at least 2 (each aspect
contributes at least weight 1 even at maximal orb deviation or for an unknown
kind), so the tension index is 0 exactly on the empty aspect list. -/
theorem tension_pos_of_nonempty (aspects : List Aspect) :
    (aspects ≠ [] → 2 ≤ _compute_harmonic_tension aspects) ∧
      (_compute_harmonic_tension aspects = 0 ↔ aspects = []) := by
  have hmain : aspects ≠ [] → 2 ≤ _compute_harmonic_tension aspects := by
    intro hne
    obtain ⟨a, t, rfl⟩ := List.exists_cons_of_ne_nil hne
    simp only [_compute_harmonic_tension]
    have h1 : 1 ≤ ((a :: t).map tensionTerm).sum := by
      have := one_le_tensionTerm a
      have := tension_total_nonneg t
      simp only [List.map_cons, List.sum_cons]
      linarith
    rw [pyint_of_nonneg (tension_scaled_nonneg _)]
    refine le_min (by norm_num) (Int.le_floor.2 ?_)
    push_cast
    linarith
  refine ⟨hmain, ?_, ?_⟩
  · intro h0
    by_contra hne
    have := hmain hne
    omega
  · rintro rfl
    norm_num [_compute_harmonic_tension, tensionTerm, pyint]

/-- Claim C10 witness: instantiated on a concrete non-empty aspect list. -/
theorem tension_pos_of_nonempty_witness :
    2 ≤ _compute_harmonic_tension [{ aspect := "Mystery", orb := 1000 }] :=
  (tension_pos_of_nonempty [{ aspect := "Mystery", orb := 1000 }]).1 (by simp)

/-! Claim theorem for the sign-inference helper. -/

/-- Claim C7: for every longitude in `[0, 360)`, the sign-inference function
computes the index `floor(longitude mod 360 / 30) = floor(longitude / 30)`,
that index is in bounds for the 12-entry `SIGNS` list (so the Python list
indexing never raises), and the result is one of the 12 canonical labels. -/
theorem infer_sign_in_bounds (lon : ℚ) (h0 : 0 ≤ lon) (h1 : lon < 360) :
    signIndex lon = (⌊lon / 30⌋).toNat ∧
      signIndex lon < SIGNS.length ∧
      _infer_sign_from_lon lon = some (inferSignTotal lon) ∧
      inferSignTotal lon ∈ SIGNS := by
  have hmod : pymod lon 360 = lon := by
    unfold pymod
    have hz : ⌊lon / 360⌋ = 0 := by
      rw [Int.floor_eq_zero_iff]
      constructor
      · positivity
      · rw [div_lt_one (by norm_num : (0 : ℚ) < 360)]; exact h1
    rw [hz]; ring
  have hidx : signIndex lon = (⌊lon / 30⌋).toNat := by
    unfold signIndex; rw [hmod]
  have hub : ⌊lon / 30⌋ < 12 := by
    rw [Int.floor_lt]
    rw [div_lt_iff (by norm_num : (0 : ℚ) < 30)]
    push_cast
    linarith
  have hlen : SIGNS.length = 12 := by rfl
  have hlt : signIndex lon < SIGNS.length := by
    rw [hidx, hlen]; omega
  have hsome : _infer_sign_from_lon lon = some (inferSignTotal lon) := by
    unfold _infer_sign_from_lon inferSignTotal
    rw [List.getD_eq_getElem?_getD, List.getElem?_eq_getElem hlt]
    rfl
  refine ⟨hidx, hlt, hsome, ?_⟩
  unfold inferSignTotal
  rw [List.getD_eq_getElem?_getD, List.getElem?_eq_getElem hlt]
  exact List.getElem_mem hlt

/-- Claim C7 witness: instantiated at longitude 130 (Leo's segment). -/
theorem infer_sign_in_bounds_witness :
    signIndex 130 = (⌊(130 : ℚ) / 30⌋).toNat ∧
      signIndex 130 < SIGNS.length ∧
      _infer_sign_from_lon 130 = some (inferSignTotal 130) ∧
      inferSignTotal 130 ∈ SIGNS :=
  infer_sign_in_bounds 130 (by norm_num) (by norm_num)

/-! Claim theorems for the modal aggregator. -/

/-- Claim C4: on the Leo/Gemini/Aquarius chart with empty positions, against
the example modal-family table, the aggregator accumulates pentatonic scores
PENT-LEO-1 = 3 (Sun), PENT-GEM-1 = 2.5 (Moon), PENT-AQU-1 = 2 (Rising) and
returns PENT-LEO-1 as the primary pentatonic mode. -/
theorem aggregate_example_scores :
    (_aggregate_scores modalIndexLGA chartLGA).1 =
        [("PENT-LEO-1", 3), ("PENT-GEM-1", 5/2), ("PENT-AQU-1", 2)] ∧
      (_aggregate_canonical_modes modalIndexLGA chartLGA).1 = "PENT-LEO-1" := by
  have h1 : (_aggregate_scores modalIndexLGA chartLGA).1 =
      [("PENT-LEO-1", 3), ("PENT-GEM-1", 5/2), ("PENT-AQU-1", 2)] := by rfl
  refine ⟨h1, ?_⟩
  simp only [_aggregate_canonical_modes]
  rw [h1]
  norm_num [maxBySnd, maxFrom]

theorem payload_tempo (timbre_map : List (String × List String)) (elem : String)
    (tension : ℤ) :
    (_build_sonic_payload timbre_map elem tension).recommended_tempo_bpm =
      60 + pyint ((tension : ℚ) / 100 * 80) := by
  simp [_build_sonic_payload]

/-- Claim C3: for every tension index `t` in `[0, 100]` and every dominant
element (and timbre table), the payload's `recommended_tempo_bpm` equals
`60 + floor(t/100 * 80)`, lies in `[60, 140]`, and is monotone non-decreasing
in `t`. -/
theorem tempo_formula_bounds_mono (timbre_map : List (String × List String))
    (elem : String) (t t' : ℤ)
    (h0 : 0 ≤ t) (h1 : t ≤ 100) (h0' : 0 ≤ t') (h1' : t' ≤ 100) :
    (_build_sonic_payload timbre_map elem t).recommended_tempo_bpm =
        60 + ⌊(t : ℚ) / 100 * 80⌋ ∧
      60 ≤ (_build_sonic_payload timbre_map elem t).recommended_tempo_bpm ∧
      (_build_sonic_payload timbre_map elem t).recommended_tempo_bpm ≤ 140 ∧
      (t ≤ t' →
        (_build_sonic_payload timbre_map elem t).recommended_tempo_bpm ≤
          (_build_sonic_payload timbre_map elem t').recommended_tempo_bpm) := by
  have hq0 : (0 : ℚ) ≤ (t : ℚ) := by exact_mod_cast h0
  have hq0' : (0 : ℚ) ≤ (t' : ℚ) := by exact_mod_cast h0'
  have harg : (0 : ℚ) ≤ (t : ℚ) / 100 * 80 := by positivity
  have harg' : (0 : ℚ) ≤ (t' : ℚ) / 100 * 80 := by positivity
  have hform : ∀ s : ℤ, 0 ≤ s →
      (_build_sonic_payload timbre_map elem s).recommended_tempo_bpm =
        60 + ⌊(s : ℚ) / 100 * 80⌋ := by
    intro s hs
    rw [payload_tempo, pyint_of_nonneg]
    have : (0 : ℚ) ≤ (s : ℚ) := by exact_mod_cast hs
    positivity
  refine ⟨hform t h0, ?_, ?_, ?_⟩
  · rw [hform t h0]
    have : (0 : ℤ) ≤ ⌊(t : ℚ) / 100 * 80⌋ := Int.floor_nonneg.2 harg
    omega
  · rw [hform t h0]
    have hle : (t : ℚ) / 100 * 80 ≤ 80 := by
      have : (t : ℚ) ≤ 100 := by exact_mod_cast h1
      linarith
    have := Int.floor_le_floor hle
    have h80 : ⌊(80 : ℚ)⌋ = 80 := by norm_num
    omega
  · intro hle
    rw [hform t h0, hform t' h0']
    have hmono : (t : ℚ) / 100 * 80 ≤ (t' : ℚ) / 100 * 80 := by
      have : (t : ℚ) ≤ (t' : ℚ) := by exact_mod_cast hle
      linarith
    have := Int.floor_le_floor hmono
    omega

/-- Claim C3 witness: instantiated at tension 0 and 100 with element Air and
an empty timbre table. -/
theorem tempo_formula_bounds_mono_witness :
    (_build_sonic_payload [] "Air" 0).recommended_tempo_bpm =
        60 + ⌊((0 : ℤ) : ℚ) / 100 * 80⌋ ∧
      60 ≤ (_build_sonic_payload [] "Air" 0).recommended_tempo_bpm ∧
      (_build_sonic_payload [] "Air" 0).recommended_tempo_bpm ≤ 140 ∧
      ((0 : ℤ) ≤ 100 →
        (_build_sonic_payload [] "Air" 0).recommended_tempo_bpm ≤
          (_build_sonic_payload [] "Air" 100).recommended_tempo_bpm) :=
  tempo_formula_bounds_mono [] "Air" 0 100 (by norm_num) (by norm_num)
    (by norm_num) (by norm_num)

theorem foldl_fixed {α β : Type} (f : α → β → α) (h : ∀ a b, f a b = a) :
    ∀ (l : List β) (a : α), l.foldl f a = a := by
  intro l
  induction l with
  | nil => intro a; rfl
  | cons x t ih => intro a; rw [List.foldl_cons, h]; exact ih a

theorem process_skip_of_no_row (modal_index : List (String × Family))
    (chart : Chart) (p : String)
    (h : ∀ sign, contributorSign chart p = some sign →
      modal_index.lookup sign = none) :
    ∀ acc, processContributor modal_index chart acc p = acc := by
  intro acc
  unfold processContributor
  cases hs : contributorSign chart p with
  | none => rfl
  | some sign =>
    dsimp only
    rw [h sign hs]
    simp [familyPentId, familyQuadId, pyOr, pyTruthy, truthyOpt]

/-- Claim C5: whenever no contributor's sign resolves to any row of the
modal-family table (in particular whenever the table is empty), the
aggregator returns the sentinel pair `("UNKNOWN", "UNKNOWN")`, regardless of
the chart's contents. -/
theorem aggregate_unknown_sentinel (modal_index : List (String × Family))
    (chart : Chart)
    (h : ∀ p sign, contributorSign chart p = some sign →
      modal_index.lookup sign = none) :
    _aggregate_canonical_modes modal_index chart = ("UNKNOWN", "UNKNOWN") := by
  have hz : _aggregate_scores modal_index chart = ([], []) :=
    foldl_fixed _ (fun acc p => process_skip_of_no_row modal_index chart p (h p) acc)
      (contributors chart) ([], [])
  simp [_aggregate_canonical_modes, hz, maxBySnd]

/-- Claim C5 witness: the empty table on the worked-example chart. -/
theorem aggregate_unknown_sentinel_witness :
    _aggregate_canonical_modes [] chartLGA = ("UNKNOWN", "UNKNOWN") :=
  aggregate_unknown_sentinel [] chartLGA (fun _ _ _ => rfl)

/-- Claim C6: the aggregator's contributor loop is total — a contributor
whose sign has no row in the table, or a non-Sun/Moon/Rising contributor
whose position is missing from `chart.positions`, contributes no score to
either accumulator, and the fold proceeds with the remaining contributors
unchanged (no exception path exists in the model). -/
theorem contributor_skip (modal_index : List (String × Family)) (chart : Chart)
    (p : String)
    (h : (¬(p = "Sun" ∨ p = "Moon" ∨ p = "Rising") ∧
            chart.positions.lookup p = none) ∨
         (∀ sign, contributorSign chart p = some sign →
            modal_index.lookup sign = none)) :
    (∀ acc, processContributor modal_index chart acc p = acc) ∧
      ∀ cs1 cs2 : List String,
        (cs1 ++ p :: cs2).foldl (processContributor modal_index chart) ([], []) =
          (cs1 ++ cs2).foldl (processContributor modal_index chart) ([], []) := by
  have hskip : ∀ acc, processContributor modal_index chart acc p = acc := by
    rcases h with ⟨hn, hnone⟩ | h
    · push_neg at hn
      obtain ⟨h1, h2, h3⟩ := hn
      intro acc
      unfold processContributor
      rw [show contributorSign chart p = none by
        simp [contributorSign, h1, h2, h3, hnone]]
    · exact process_skip_of_no_row modal_index chart p h
  refine ⟨hskip, ?_⟩
  intro cs1 cs2
  rw [List.foldl_append, List.foldl_append, List.foldl_cons, hskip]

/-- Claim C6 witness: a Mars contributor with no stored position on the
worked-example chart casts no vote and drops out of the fold. -/
theorem contributor_skip_witness :
    processContributor modalIndexLGA chartLGA ([], []) "Mars" = ([], []) ∧
      (["Sun"] ++ "Mars" :: ["Moon"]).foldl
          (processContributor modalIndexLGA chartLGA) ([], []) =
        (["Sun"] ++ ["Moon"]).foldl
          (processContributor modalIndexLGA chartLGA) ([], []) :=
  have h := contributor_skip modalIndexLGA chartLGA "Mars"
    (Or.inl ⟨by decide, rfl⟩)
  ⟨h.1 ([], []), h.2 ["Sun"] ["Moon"]⟩

/-- Claim C9: on the Leo/Gemini/Aquarius chart with empty positions and
aspects, for any modal-family and timbre tables, the engine produces tension
index 0, element tally Fire = 1 and Air = 2, dominant element Air, waveform
"triangle" and recommended tempo 60. -/
theorem engine_example (modal_index : List (String × Family))
    (timbre_map : List (String × List String)) :
    (run_harmonic_engine modal_index timbre_map chartLGA).harmonic_tension_index = 0 ∧
      elementCounts chartLGA = [("Fire", 1), ("Air", 2)] ∧
      (run_harmonic_engine modal_index timbre_map chartLGA).dominant_element = "Air" ∧
      (run_harmonic_engine modal_index timbre_map chartLGA).sonic_payload.waveform =
        "triangle" ∧
      (run_harmonic_engine modal_index timbre_map
          chartLGA).sonic_payload.recommended_tempo_bpm = 60 := by
  have htens : _compute_harmonic_tension chartLGA.aspects = 0 := by
    norm_num [chartLGA, _compute_harmonic_tension, tensionTerm, pyint]
  have hsc : signCounts chartLGA = [("Leo", 1), ("Gemini", 1), ("Aquarius", 1)] := by
    simp [signCounts, chartLGA, addScore]
  have helem : elementCounts chartLGA = [("Fire", 1), ("Air", 2)] := by
    simp only [elementCounts]
    rw [hsc]
    simp [addScore, ELEMENT_BY_SIGN, List.lookup]
    norm_num
  have hdom : _determine_dominant_element chartLGA = "Air" := by
    simp only [_determine_dominant_element]
    rw [helem]
    norm_num [maxBySnd, maxFrom]
  refine ⟨?_, helem, ?_, ?_, ?_⟩
  · simp only [run_harmonic_engine]
    exact htens
  · simp only [run_harmonic_engine]
    exact hdom
  · simp only [run_harmonic_engine]
    rw [hdom]
    simp [_build_sonic_payload, waveform_map, List.lookup]
  · simp only [run_harmonic_engine]
    rw [hdom, htens, payload_tempo]
    norm_num [pyint]

/-- Claim C9 witness: instantiated at the worked-example modal table and an
empty timbre table. -/
theorem engine_example_witness :
    (run_harmonic_engine modalIndexLGA [] chartLGA).harmonic_tension_index = 0 ∧
      elementCounts chartLGA = [("Fire", 1), ("Air", 2)] ∧
      (run_harmonic_engine modalIndexLGA [] chartLGA).dominant_element = "Air" ∧
      (run_harmonic_engine modalIndexLGA [] chartLGA).sonic_payload.waveform =
        "triangle" ∧
      (run_harmonic_engine modalIndexLGA [] chartLGA).sonic_payload.recommended_tempo_bpm =
        60 :=
  engine_example modalIndexLGA []

/-! Supporting lemmas for the vote-monotonicity claim. -/

theorem lookup_append {β : Type} (l₁ l₂ : List (String × β)) (k : String) :
    (l₁ ++ l₂).lookup k = (l₁.lookup k).or (l₂.lookup k) := by
  induction l₁ with
  | nil => simp [List.lookup]
  | cons hd t ih =>
    obtain ⟨a, b⟩ := hd
    simp only [List.cons_append, List.lookup]
    cases h : (k == a) with
    | false => simpa [h] using ih
    | true => simp [h]

theorem lookup_eq_none_of_not_mem {β : Type} {l : List (String × β)} {k : String}
    (h : k ∉ l.map Prod.fst) : l.lookup k = none := by
  induction l with
  | nil => rfl
  | cons hd t ih =>
    obtain ⟨a, b⟩ := hd
    simp only [List.map_cons, List.mem_cons] at h
    push_neg at h
    simp only [List.lookup]
    rw [show (k == a) = false from beq_eq_false_iff_ne.mpr h.1]
    exact ih h.2

theorem lookup_self_mem {β : Type} :
    ∀ {l : List (String × β)} {k : String} {v : β},
      l.lookup k = some v → (k, v) ∈ l := by
  intro l
  induction l with
  | nil => intro k v h; simp [List.lookup] at h
  | cons hd t ih =>
    intro k v h
    obtain ⟨a, b⟩ := hd
    simp only [List.lookup] at h
    split at h
    next hbeq =>
      cases h
      have hka : k = a := eq_of_beq hbeq
      subst hka
      exact List.mem_cons_self _ _
    next hbeq =>
      exact List.mem_cons_of_mem _ (ih h)

theorem addScore_lookup_self {l : Scores} {k₀ : String} {v : ℚ} (w : ℚ)
    (h : l.lookup k₀ = some v) :
    (addScore l k₀ w).lookup k₀ = some (v + w) := by
  induction l with
  | nil => simp [List.lookup] at h
  | cons hd t ih =>
    obtain ⟨a, b⟩ := hd
    by_cases hak : a = k₀
    · subst hak
      simp only [addScore, if_pos rfl]
      simp only [List.lookup, beq_self_eq_true] at h ⊢
      cases h
      rfl
    · have hk : (k₀ == a) = false := beq_eq_false_iff_ne.mpr (Ne.symm hak)
      simp only [addScore, if_neg hak]
      simp only [List.lookup, hk] at h ⊢
      exact ih h

theorem mem_addScore_ne {l : Scores} {k₀ : String} {w : ℚ} {x : String × ℚ}
    (hx : x ∈ addScore l k₀ w) (hne : x.1 ≠ k₀) : x ∈ l := by
  induction l with
  | nil =>
    simp only [addScore, List.mem_singleton] at hx
    exact absurd (by rw [hx]) hne
  | cons hd t ih =>
    obtain ⟨a, b⟩ := hd
    by_cases hak : a = k₀
    · subst hak
      simp only [addScore, if_pos rfl] at hx
      rcases List.mem_cons.mp hx with h1 | h1
      · exact absurd (by rw [h1]) hne
      · exact List.mem_cons_of_mem _ h1
    · simp only [addScore, if_neg hak] at hx
      rcases List.mem_cons.mp hx with h1 | h1
      · rw [h1]; exact List.mem_cons_self _ _
      · exact List.mem_cons_of_mem _ (ih h1)

theorem maxFrom_mem :
    ∀ (l : List (String × ℚ)) (b : String × ℚ), maxFrom b l ∈ b :: l := by
  intro l
  induction l with
  | nil => intro b; simp [maxFrom]
  | cons x t ih =>
    intro b
    simp only [maxFrom]
    have h := ih (if b.2 < x.2 then x else b)
    rcases List.mem_cons.mp h with h1 | h1
    · rw [h1]
      split_ifs <;> simp
    · exact List.mem_cons_of_mem _ (List.mem_cons_of_mem _ h1)

theorem le_maxFrom :
    ∀ (l : List (String × ℚ)) (b y : String × ℚ),
      y ∈ b :: l → y.2 ≤ (maxFrom b l).2 := by
  intro l
  induction l with
  | nil =>
    intro b y hy
    simp only [List.mem_singleton] at hy
    rw [hy]
    exact le_refl _
  | cons x t ih =>
    intro b y hy
    simp only [maxFrom]
    have hb2 : b.2 ≤ (if b.2 < x.2 then x else b).2 := by
      split_ifs with hc
      · exact le_of_lt hc
      · exact le_refl _
    have hx2 : x.2 ≤ (if b.2 < x.2 then x else b).2 := by
      split_ifs with hc
      · exact le_refl _
      · exact le_of_not_lt hc
    have htop : (if b.2 < x.2 then x else b).2 ≤
        (maxFrom (if b.2 < x.2 then x else b) t).2 :=
      ih _ _ (List.mem_cons_self _ _)
    rcases List.mem_cons.mp hy with h1 | h1
    · rw [h1]; exact le_trans hb2 htop
    · rcases List.mem_cons.mp h1 with h2 | h2
      · rw [h2]; exact le_trans hx2 htop
      · exact ih _ _ (List.mem_cons_of_mem _ h2)

theorem maxBySnd_spec {l : List (String × ℚ)} {best : String × ℚ}
    (h : maxBySnd l = some best) : best ∈ l ∧ ∀ y ∈ l, y.2 ≤ best.2 := by
  cases l with
  | nil => simp [maxBySnd] at h
  | cons x t =>
    simp only [maxBySnd, Option.some.injEq] at h
    subst h
    exact ⟨maxFrom_mem t x, fun y hy => le_maxFrom t x y hy⟩

theorem winner_of_strict_max {l : List (String × ℚ)} {m : String} {v : ℚ}
    (hv : l.lookup m = some v) (hmax : ∀ kw ∈ l, kw.1 ≠ m → kw.2 < v) :
    ((maxBySnd l).map Prod.fst).getD "UNKNOWN" = m := by
  have hmem : (m, v) ∈ l := lookup_self_mem hv
  cases hl : maxBySnd l with
  | none =>
    cases l with
    | nil => simp at hmem
    | cons x t => simp [maxBySnd] at hl
  | some best =>
    obtain ⟨hbmem, hble⟩ := maxBySnd_spec hl
    simp only [Option.map_some', Option.getD_some]
    by_contra hne
    have h1 : best.2 < v := hmax best hbmem hne
    have h2 : v ≤ best.2 := hble (m, v) hmem
    linarith

theorem mem_foldl_dedup (l : List String) :
    ∀ (acc : List String) (x : String),
      x ∈ l.foldl (fun acc y => if acc.contains y then acc else acc ++ [y]) acc ↔
        x ∈ acc ∨ x ∈ l := by
  induction l with
  | nil => intro acc x; simp
  | cons y t ih =>
    intro acc x
    rw [List.foldl_cons, ih]
    by_cases hc : acc.contains y = true
    · rw [if_pos hc]
      have hy : y ∈ acc := List.elem_iff.mp hc
      constructor
      · rintro (h | h)
        · exact Or.inl h
        · exact Or.inr (List.mem_cons_of_mem _ h)
      · rintro (h | h)
        · exact Or.inl h
        · rcases List.mem_cons.mp h with h1 | h1
          · exact Or.inl (h1 ▸ hy)
          · exact Or.inr h1
    · rw [if_neg hc]
      simp only [List.mem_append, List.mem_singleton, List.mem_cons]
      tauto

theorem mem_pyDedup {l : List String} {x : String} : x ∈ pyDedup l ↔ x ∈ l := by
  unfold pyDedup
  rw [mem_foldl_dedup]
  simp

theorem pyDedup_append_fresh {l : List String} {q : String} (h : q ∉ l) :
    pyDedup (l ++ [q]) = pyDedup l ++ [q] := by
  unfold pyDedup
  rw [List.foldl_append]
  simp only [List.foldl_cons, List.foldl_nil]
  have hq : ¬((List.foldl (fun acc y => if acc.contains y then acc else acc ++ [y])
      [] l).contains q = true) := by
    intro hc
    exact h (mem_pyDedup.mp (List.elem_iff.mp hc))
  rw [if_neg hq]

theorem not_mem_contributors (chart : Chart) (q : String)
    (hq : ¬(q = "Sun" ∨ q = "Moon" ∨ q = "Rising"))
    (hkeys : q ∉ chart.positions.map Prod.fst) : q ∉ contributors chart := by
  unfold contributors
  rw [mem_pyDedup]
  push_neg at hq
  obtain ⟨h1, h2, h3⟩ := hq
  simp only [List.mem_append, List.mem_cons, List.not_mem_nil, or_false]
  rintro ((hs | hs | hs) | hk)
  · exact h1 hs
  · exact h2 hs
  · exact h3 hs
  · exact hkeys hk

theorem contributors_extend (chart : Chart) (q : String) (pos : Position)
    (hq : ¬(q = "Sun" ∨ q = "Moon" ∨ q = "Rising"))
    (hkeys : q ∉ chart.positions.map Prod.fst) :
    contributors (chartWithPlanet chart q pos) = contributors chart ++ [q] := by
  unfold contributors chartWithPlanet
  simp only [List.map_append, List.map_cons, List.map_nil]
  rw [show ["Sun", "Moon", "Rising"] ++
      (chart.positions.map Prod.fst ++ [(q, pos).1]) =
      (["Sun", "Moon", "Rising"] ++ chart.positions.map Prod.fst) ++ [q] by
    simp]
  apply pyDedup_append_fresh
  push_neg at hq
  obtain ⟨h1, h2, h3⟩ := hq
  simp only [List.mem_append, List.mem_cons, List.not_mem_nil, or_false]
  rintro ((hs | hs | hs) | hk)
  · exact h1 hs
  · exact h2 hs
  · exact h3 hs
  · exact hkeys hk

theorem contributorSign_extend (chart : Chart) (q : String) (pos : Position)
    (p : String) (hpq : p ≠ q) :
    contributorSign (chartWithPlanet chart q pos) p = contributorSign chart p := by
  unfold contributorSign chartWithPlanet
  by_cases h1 : p = "Rising"
  · simp [h1]
  by_cases h2 : p = "Sun"
  · simp [h1, h2]
  by_cases h3 : p = "Moon"
  · simp [h1, h2, h3]
  simp only [if_neg h1, if_neg h2, if_neg h3]
  rw [lookup_append]
  rw [show List.lookup p [(q, pos)] = none by
    simp [List.lookup, beq_eq_false_iff_ne.mpr hpq]]
  rw [Option.or_none]

theorem processContributor_congr (modal_index : List (String × Family))
    (chart chart' : Chart) (p : String)
    (h : contributorSign chart' p = contributorSign chart p) (acc : Scores × Scores) :
    processContributor modal_index chart' acc p =
      processContributor modal_index chart acc p := by
  unfold processContributor
  rw [h]

theorem foldl_congr_on {α β : Type} (f g : α → β → α) :
    ∀ l : List β, (∀ a b, b ∈ l → f a b = g a b) → ∀ a, l.foldl f a = l.foldl g a := by
  intro l
  induction l with
  | nil => intro _ a; rfl
  | cons x t ih =>
    intro h a
    rw [List.foldl_cons, List.foldl_cons, h a x (List.mem_cons_self x t)]
    exact ih (fun a b hb => h a b (List.mem_cons_of_mem x hb)) _

theorem contributorSign_new_planet (chart : Chart) (q : String) (pos : Position)
    (hq : ¬(q = "Sun" ∨ q = "Moon" ∨ q = "Rising"))
    (hkeys : q ∉ chart.positions.map Prod.fst) :
    contributorSign (chartWithPlanet chart q pos) q =
      some (inferSignTotal pos.lon) := by
  push_neg at hq
  obtain ⟨h1, h2, h3⟩ := hq
  unfold contributorSign chartWithPlanet
  simp only [if_neg h3, if_neg h1, if_neg h2]
  rw [lookup_append, lookup_eq_none_of_not_mem hkeys]
  simp [List.lookup]

/-- Claim C8: if the pentatonic winner `m` has strictly the highest
accumulated score, then adding one more (fresh, non-Sun/Moon/Rising)
contributor whose longitude's sign resolves in the table to the pentatonic
mode ID `m` strictly increases `m`'s accumulated score and leaves the
pentatonic winner unchanged. -/
theorem vote_monotonicity (modal_index : List (String × Family)) (chart : Chart)
    (q : String) (pos : Position) (m : String) (v : ℚ)
    (hq : ¬(q = "Sun" ∨ q = "Moon" ∨ q = "Rising"))
    (hkeys : q ∉ chart.positions.map Prod.fst)
    (hmode : truthyOpt (familyPentId
      ((modal_index.lookup (inferSignTotal pos.lon)).getD {})) = some m)
    (hv : (_aggregate_scores modal_index chart).1.lookup m = some v)
    (hmax : ∀ kw ∈ (_aggregate_scores modal_index chart).1, kw.1 ≠ m → kw.2 < v) :
    (_aggregate_scores modal_index (chartWithPlanet chart q pos)).1.lookup m =
        some (v + _get_planet_weight q) ∧
      v < v + _get_planet_weight q ∧
      (_aggregate_canonical_modes modal_index chart).1 = m ∧
      (_aggregate_canonical_modes modal_index (chartWithPlanet chart q pos)).1 = m := by
  have hw : 0 < _get_planet_weight q := planet_weight_pos q
  have hqnot : q ∉ contributors chart := not_mem_contributors chart q hq hkeys
  have hps' : (_aggregate_scores modal_index (chartWithPlanet chart q pos)).1 =
      addScore (_aggregate_scores modal_index chart).1 m (_get_planet_weight q) := by
    unfold _aggregate_scores
    rw [contributors_extend chart q pos hq hkeys, List.foldl_append]
    have hpre : (contributors chart).foldl
        (processContributor modal_index (chartWithPlanet chart q pos)) ([], []) =
        (contributors chart).foldl (processContributor modal_index chart) ([], []) := by
      apply foldl_congr_on
      intro a p hp
      apply processContributor_congr
      apply contributorSign_extend
      exact fun he => hqnot (he ▸ hp)
    rw [hpre]
    simp only [List.foldl_cons, List.foldl_nil]
    unfold processContributor
    rw [contributorSign_new_planet chart q pos hq hkeys]
    dsimp only
    rw [hmode]
  have hlook : (_aggregate_scores modal_index (chartWithPlanet chart q pos)).1.lookup m =
      some (v + _get_planet_weight q) := by
    rw [hps']
    exact addScore_lookup_self _ hv
  refine ⟨hlook, by linarith, ?_, ?_⟩
  · simp only [_aggregate_canonical_modes]
    exact winner_of_strict_max hv hmax
  · simp only [_aggregate_canonical_modes]
    apply winner_of_strict_max hlook
    rw [hps']
    intro kw hkw hne
    have hmem := mem_addScore_ne hkw hne
    have := hmax kw hmem hne
    linarith

/-- Claim C8 witness: adding Mars at longitude 130° (a Leo longitude) to the
worked-example chart, where PENT-LEO-1 leads strictly with score 3. -/
theorem vote_monotonicity_witness :
    (_aggregate_scores modalIndexLGA
          (chartWithPlanet chartLGA "Mars" ⟨130, 0, 0⟩)).1.lookup "PENT-LEO-1" =
        some (3 + _get_planet_weight "Mars") ∧
      (3 : ℚ) < 3 + _get_planet_weight "Mars" ∧
      (_aggregate_canonical_modes modalIndexLGA chartLGA).1 = "PENT-LEO-1" ∧
      (_aggregate_canonical_modes modalIndexLGA
          (chartWithPlanet chartLGA "Mars" ⟨130, 0, 0⟩)).1 = "PENT-LEO-1" :=
  vote_monotonicity modalIndexLGA chartLGA "Mars" ⟨130, 0, 0⟩ "PENT-LEO-1" 3
    (by decide) (by simp [chartLGA])
    (by
      have hsign : inferSignTotal (130 : ℚ) = "Leo" := by
        have h4 : ⌊pymod 130 360 / 30⌋ = (4 : ℤ) := by norm_num [pymod]
        unfold inferSignTotal signIndex
        rw [h4]
        rfl
      rw [show (Position.mk 130 0 0).lon = (130 : ℚ) from rfl, hsign]
      rfl)
    rfl
    (by
      intro kw hkw hne
      rw [show (_aggregate_scores modalIndexLGA chartLGA).1 =
        [("PENT-LEO-1", 3), ("PENT-GEM-1", 5/2), ("PENT-AQU-1", 2)] from rfl] at hkw
      simp only [List.mem_cons, List.not_mem_nil, or_false] at hkw
      rcases hkw with rfl | rfl | rfl
      · exact absurd rfl hne
      · norm_num
      · norm_num)

end Quantumelodic
